import Mathlib

/-!
Formal verification of the two housekeeping scripts of the OpenFields2
repository: the weapon-damage rescaler (src/scale_weapon_damage.py) and the
plan-file relocator (src/plans/move_cycle_to_completed.py).  Both Python
scripts are shallowly embedded: JSON documents become an inductive type,
the filesystem becomes explicit finite maps, and each script becomes a pure
function on that state.
-/

namespace ListFacts

theorem map_eq_self {α : Type _} {f : α → α} :
    ∀ {l : List α}, (∀ a ∈ l, f a = a) → l.map f = l
  | [], _ => rfl
  | a :: as, h => by
    simp only [List.map_cons]
    rw [h a (List.mem_cons_self a as),
      map_eq_self fun b hb => h b (List.mem_cons_of_mem a hb)]

theorem map_eqOf {α β : Type _} {f g : α → β} :
    ∀ {l : List α}, (∀ a ∈ l, f a = g a) → l.map f = l.map g
  | [], _ => rfl
  | a :: as, h => by
    simp only [List.map_cons]
    rw [h a (List.mem_cons_self a as),
      map_eqOf fun b hb => h b (List.mem_cons_of_mem a hb)]

theorem any_eqOf {α : Type _} {p q : α → Bool} :
    ∀ {l : List α}, (∀ a ∈ l, p a = q a) → l.any p = l.any q
  | [], _ => rfl
  | a :: as, h => by
    simp only [List.any_cons]
    rw [h a (List.mem_cons_self a as),
      any_eqOf fun b hb => h b (List.mem_cons_of_mem a hb)]

theorem any_orF {α : Type _} (p q : α → Bool) :
    ∀ l : List α, (l.any fun a => p a || q a) = (l.any p || l.any q)
  | [] => rfl
  | a :: as => by
    simp only [List.any_cons, any_orF p q as]
    cases p a <;> cases q a <;> simp

theorem any_mapF {α β : Type _} (f : α → β) (p : β → Bool) :
    ∀ l : List α, (l.map f).any p = l.any fun a => p (f a)
  | [] => rfl
  | a :: as => by simp only [List.map_cons, List.any_cons, any_mapF f p as]

theorem any_false_of_all_false {α : Type _} {p : α → Bool} {l : List α}
    (h : ∀ a ∈ l, p a = false) : l.any p = false :=
  List.any_eq_false.mpr fun a ha => by rw [h a ha]; exact Bool.false_ne_true

end ListFacts

namespace Rescaler

/-- JSON values, as produced by Python's `json.load`: null, booleans,
numbers, strings, arrays and objects (objects keep their key order, the way
Python dicts keep insertion order).  Numbers are modelled as integers; the
documents the script is written for carry integer damage values. -/
inductive JSON where
  | null
  | bool (b : Bool)
  | num (n : Int)
  | str (s : String)
  | arr (elems : List JSON)
  | obj (fields : List (String × JSON))

/-- A parsed top-level weapon document: an ordered JSON object. -/
abbrev Doc := List (String × JSON)

/-- The assignment `weapon['damage'] = old_damage * scale_factor`
(scale_weapon_damage.py lines 24-26 and 34-36) for a numeric damage value.
A non-numeric damage value is left unchanged here (the script's documents
only ever carry numeric damage; Python would perform sequence repetition or
raise a TypeError on other types). -/
def scaleVal (factor : Int) : JSON → JSON
  | .num n => .num (n * factor)
  | v => v

/-- The body of the per-weapon loop (lines 23-28 / 33-38): if the weapon
record is an object with a `damage` key, that value is replaced by
`damage * scale_factor` and `changes_made` is set; otherwise nothing
happens.  (A non-object record is treated as a no-op; the documents the
script processes only hold object records.) -/
def scaleWeapon (factor : Int) : JSON → JSON × Bool
  | .obj fields =>
    if fields.any fun p => p.1 == "damage" then
      (.obj (fields.map fun p =>
        if p.1 == "damage" then (p.1, scaleVal factor p.2) else p), true)
    else (.obj fields, false)
  | v => (v, false)

/-- One of the two section loops (`for weapon_id, weapon in data[...].items()`,
lines 22-28 / 32-38): every entry of the section object is run through
`scaleWeapon`, and `changes_made` records whether any entry changed. -/
def scaleSection (factor : Int) : JSON → JSON × Bool
  | .obj entries =>
    (.obj (entries.map fun p => (p.1, (scaleWeapon factor p.2).1)),
     entries.any fun p => (scaleWeapon factor p.2).2)
  | v => (v, false)

/-- One `if key in data:` block of scale_weapon_damage (lines 21-28 for
`weapons`, lines 31-38 for `meleeWeapons`): when the key is present, its
section is rescaled in place (all other top-level fields, and the key
order, are untouched). -/
def scaleTop (factor : Int) (key : String) (data : Doc) : Doc × Bool :=
  if data.any fun p => p.1 == key then
    (data.map fun p =>
       if p.1 == key then (p.1, (scaleSection factor p.2).1) else p,
     data.any fun p => p.1 == key && (scaleSection factor p.2).2)
  else (data, false)

/-- The in-memory transformation performed by scale_weapon_damage (lines
18-38): process the `weapons` block, then the `meleeWeapons` block, and
report whether any damage replacement happened. -/
def scaleDoc (data : Doc) (factor : Int) : Doc × Bool :=
  let r1 := scaleTop factor "weapons" data
  let r2 := scaleTop factor "meleeWeapons" r1.1
  (r2.1, r1.2 || r2.2)

/-- The content of a weapon file as the script sees it: either text that
`json.load` rejects, or a parsed document.  Byte-level identity of an
unchanged file is captured by the script not writing at all (the returned
content is the input value itself). -/
inductive FileContent where
  | malformed
  | valid (doc : Doc)

/-- The whole of scale_weapon_damage (lines 10-48) on one file: `json.load`
raises on malformed input and nothing catches it (`.error ()`); otherwise
the document is transformed, written back only when `changes_made` is true,
and `changes_made` is returned. -/
def scale_weapon_damage (content : FileContent) (factor : Int) :
    Except Unit (FileContent × Bool) :=
  match content with
  | .malformed => .error ()
  | .valid d =>
    let r := scaleDoc d factor
    if r.2 then .ok (.valid r.1, true) else .ok (.valid d, false)

/-- Spec-side description of the per-record rule: an object record's
`damage` value is multiplied by the factor exactly once; everything else
is kept as is. -/
def specScaleWeapon (factor : Int) : JSON → JSON
  | .obj fields =>
    .obj (fields.map fun p =>
      if p.1 == "damage" then (p.1, scaleVal factor p.2) else p)
  | v => v

/-- Spec-side description of one section: every entry's record is rescaled
once, keys and order untouched. -/
def specScaleSection (factor : Int) : JSON → JSON
  | .obj entries => .obj (entries.map fun p => (p.1, specScaleWeapon factor p.2))
  | v => v

/-- Spec-side description of one top-level field: only the `weapons` and
`meleeWeapons` fields are rescaled; every other field is untouched. -/
def specScaleEntry (factor : Int) (p : String × JSON) : String × JSON :=
  if p.1 == "weapons" || p.1 == "meleeWeapons" then
    (p.1, specScaleSection factor p.2)
  else p

/-- Spec-side description of the whole rescale: one uniform pass that
multiplies every `damage` attribute present in entries of the `weapons`
and `meleeWeapons` mappings by the factor exactly once. -/
def specScaleDoc (factor : Int) (data : Doc) : Doc :=
  data.map (specScaleEntry factor)

/-- Whether a weapon record possesses a `damage` key (`'damage' in weapon`). -/
def weaponHasDamage : JSON → Bool
  | .obj fields => fields.any fun p => p.1 == "damage"
  | _ => false

/-- Whether any entry of a section object possesses a `damage` key. -/
def sectionHasDamage : JSON → Bool
  | .obj entries => entries.any fun p => weaponHasDamage p.2
  | _ => false

/-- Whether any entry of the `weapons` or `meleeWeapons` mappings of a
document possesses a `damage` key. -/
def docHasDamage (data : Doc) : Bool :=
  data.any fun p =>
    (p.1 == "weapons" || p.1 == "meleeWeapons") && sectionHasDamage p.2

/-- Mask the `damage` value of a record (frame-condition tool: everything a
rescale may change is blanked to null, so equality of masked values states
that everything else is preserved, key order included). -/
def maskWeapon : JSON → JSON
  | .obj fields =>
    .obj (fields.map fun p => if p.1 == "damage" then (p.1, JSON.null) else p)
  | v => v

/-- Mask the `damage` values of every entry of a section. -/
def maskSection : JSON → JSON
  | .obj entries => .obj (entries.map fun p => (p.1, maskWeapon p.2))
  | v => v

/-- Mask every `damage` value a rescale may touch in a document. -/
def maskDoc (data : Doc) : Doc :=
  data.map fun p =>
    if p.1 == "weapons" || p.1 == "meleeWeapons" then (p.1, maskSection p.2)
    else p

end Rescaler

namespace Rescaler

theorem scaleWeapon_eq (f : Int) (w : JSON) :
    scaleWeapon f w = (specScaleWeapon f w, weaponHasDamage w) := by
  cases w with
  | obj fields =>
    simp only [scaleWeapon, specScaleWeapon, weaponHasDamage]
    split
    · next h => rw [h]
    · next h =>
      have h' : (fields.any fun p => p.1 == "damage") = false := Bool.eq_false_iff.mpr h
      rw [h']
      refine congrArg (fun x => (JSON.obj x, false)) ?_
      exact (ListFacts.map_eq_self fun p hp =>
        if_neg (List.any_eq_false.mp h' p hp)).symm
  | null => rfl
  | bool b => rfl
  | num n => rfl
  | str s => rfl
  | arr elems => rfl

theorem scaleSection_eq (f : Int) (v : JSON) :
    scaleSection f v = (specScaleSection f v, sectionHasDamage v) := by
  cases v with
  | obj entries =>
    simp only [scaleSection, specScaleSection, sectionHasDamage]
    refine congrArg₂ Prod.mk (congrArg JSON.obj ?_) ?_
    · exact ListFacts.map_eqOf fun p hp => by rw [scaleWeapon_eq]
    · exact ListFacts.any_eqOf fun p hp => by rw [scaleWeapon_eq]
  | null => rfl
  | bool b => rfl
  | num n => rfl
  | str s => rfl
  | arr elems => rfl

theorem scaleTop_eq (f : Int) (k : String) (d : Doc) :
    scaleTop f k d =
      (d.map fun p => if p.1 == k then (p.1, specScaleSection f p.2) else p,
       d.any fun p => p.1 == k && sectionHasDamage p.2) := by
  unfold scaleTop
  split
  · next h =>
    refine congrArg₂ Prod.mk ?_ ?_
    · refine ListFacts.map_eqOf fun p hp => ?_
      by_cases hk : (p.1 == k) = true
      · rw [if_pos hk, if_pos hk, scaleSection_eq]
      · rw [if_neg hk, if_neg hk]
    · exact ListFacts.any_eqOf fun p hp => by rw [scaleSection_eq]
  · next h =>
    have h' : (d.any fun p => p.1 == k) = false := Bool.eq_false_iff.mpr h
    refine congrArg₂ Prod.mk ?_ ?_
    · exact (ListFacts.map_eq_self fun p hp =>
        if_neg (List.any_eq_false.mp h' p hp)).symm
    · refine (ListFacts.any_false_of_all_false fun p hp => ?_).symm
      have hb : (p.1 == k) = false := Bool.eq_false_iff.mpr (List.any_eq_false.mp h' p hp)
      rw [hb, Bool.false_and]

theorem scaleDoc_eq (d : Doc) (f : Int) :
    scaleDoc d f = (specScaleDoc f d, docHasDamage d) := by
  simp only [scaleDoc, scaleTop_eq, specScaleDoc, docHasDamage]
  refine congrArg₂ Prod.mk ?_ ?_
  · rw [List.map_map]
    refine ListFacts.map_eqOf fun p hp => ?_
    simp only [Function.comp_apply, specScaleEntry]
    cases h1 : (p.1 == "weapons") with
    | true =>
      cases h2 : (p.1 == "meleeWeapons") with
      | true =>
        have e2 := eq_of_beq h2
        rw [eq_of_beq h1] at e2
        exact absurd e2 (by decide)
      | false => simp [h1, h2]
    | false =>
      cases h2 : (p.1 == "meleeWeapons") with
      | true => simp [h1, h2]
      | false => simp [h1, h2]
  · rw [ListFacts.any_mapF, ← ListFacts.any_orF]
    refine ListFacts.any_eqOf fun p hp => ?_
    cases h1 : (p.1 == "weapons") with
    | true =>
      cases h2 : (p.1 == "meleeWeapons") with
      | true =>
        have e2 := eq_of_beq h2
        rw [eq_of_beq h1] at e2
        exact absurd e2 (by decide)
      | false => simp [h1, h2]
    | false =>
      cases h2 : (p.1 == "meleeWeapons") with
      | true => simp [h1, h2]
      | false => simp [h1, h2]

theorem scaleVal_comp (f : Int) (v : JSON) :
    scaleVal f (scaleVal f v) = scaleVal (f * f) v := by
  cases v <;> simp [scaleVal, Int.mul_assoc]

theorem specScaleWeapon_comp (f : Int) (w : JSON) :
    specScaleWeapon f (specScaleWeapon f w) = specScaleWeapon (f * f) w := by
  cases w with
  | obj fields =>
    simp only [specScaleWeapon, List.map_map]
    refine congrArg JSON.obj (ListFacts.map_eqOf fun p hp => ?_)
    by_cases hd : p.1 = "damage"
    · simp [Function.comp_apply, hd, scaleVal_comp]
    · simp [Function.comp_apply, hd]
  | null => rfl
  | bool b => rfl
  | num n => rfl
  | str s => rfl
  | arr elems => rfl

theorem specScaleSection_comp (f : Int) (v : JSON) :
    specScaleSection f (specScaleSection f v) = specScaleSection (f * f) v := by
  cases v with
  | obj entries =>
    simp only [specScaleSection, List.map_map]
    exact congrArg JSON.obj (ListFacts.map_eqOf fun p hp => by
      simp [Function.comp_apply, specScaleWeapon_comp])
  | null => rfl
  | bool b => rfl
  | num n => rfl
  | str s => rfl
  | arr elems => rfl

theorem specScaleEntry_comp (f : Int) (p : String × JSON) :
    specScaleEntry f (specScaleEntry f p) = specScaleEntry (f * f) p := by
  by_cases h : (p.1 == "weapons" || p.1 == "meleeWeapons") = true
  · simp [specScaleEntry, h, specScaleSection_comp]
  · simp [specScaleEntry, h]

theorem specScaleDoc_comp (f : Int) (d : Doc) :
    specScaleDoc f (specScaleDoc f d) = specScaleDoc (f * f) d := by
  simp only [specScaleDoc, List.map_map]
  exact ListFacts.map_eqOf fun p hp => by
    simp only [Function.comp_apply]; exact specScaleEntry_comp f p

end Rescaler

namespace Rescaler

theorem maskWeapon_spec (f : Int) (w : JSON) :
    maskWeapon (specScaleWeapon f w) = maskWeapon w := by
  cases w with
  | obj fields =>
    simp only [specScaleWeapon, maskWeapon, List.map_map]
    refine congrArg JSON.obj (ListFacts.map_eqOf fun p hp => ?_)
    by_cases hd : p.1 = "damage"
    · simp [Function.comp_apply, hd]
    · simp [Function.comp_apply, hd]
  | null => rfl
  | bool b => rfl
  | num n => rfl
  | str s => rfl
  | arr elems => rfl

theorem maskSection_spec (f : Int) (v : JSON) :
    maskSection (specScaleSection f v) = maskSection v := by
  cases v with
  | obj entries =>
    simp only [specScaleSection, maskSection, List.map_map]
    exact congrArg JSON.obj (ListFacts.map_eqOf fun p hp => by
      simp [Function.comp_apply, maskWeapon_spec])
  | null => rfl
  | bool b => rfl
  | num n => rfl
  | str s => rfl
  | arr elems => rfl

theorem maskDoc_spec (f : Int) (d : Doc) :
    maskDoc (specScaleDoc f d) = maskDoc d := by
  simp only [specScaleDoc, maskDoc, List.map_map]
  refine ListFacts.map_eqOf fun p hp => ?_
  by_cases h : p.1 = "weapons" ∨ p.1 = "meleeWeapons"
  · rcases h with h | h <;> simp [Function.comp_apply, specScaleEntry, h, maskSection_spec]
  · push_neg at h
    simp [Function.comp_apply, specScaleEntry, h.1, h.2]

theorem weaponHasDamage_spec (f : Int) (w : JSON) :
    weaponHasDamage (specScaleWeapon f w) = weaponHasDamage w := by
  cases w with
  | obj fields =>
    simp only [specScaleWeapon, weaponHasDamage, ListFacts.any_mapF]
    refine ListFacts.any_eqOf fun p hp => ?_
    by_cases hd : p.1 = "damage"
    · simp [hd]
    · simp [hd]
  | null => rfl
  | bool b => rfl
  | num n => rfl
  | str s => rfl
  | arr elems => rfl

theorem sectionHasDamage_spec (f : Int) (v : JSON) :
    sectionHasDamage (specScaleSection f v) = sectionHasDamage v := by
  cases v with
  | obj entries =>
    simp only [specScaleSection, sectionHasDamage, ListFacts.any_mapF]
    exact ListFacts.any_eqOf fun p hp => weaponHasDamage_spec f p.2
  | null => rfl
  | bool b => rfl
  | num n => rfl
  | str s => rfl
  | arr elems => rfl

theorem docHasDamage_spec (f : Int) (d : Doc) :
    docHasDamage (specScaleDoc f d) = docHasDamage d := by
  simp only [specScaleDoc, docHasDamage, ListFacts.any_mapF]
  refine ListFacts.any_eqOf fun p hp => ?_
  by_cases h : p.1 = "weapons" ∨ p.1 = "meleeWeapons"
  · rcases h with h | h <;> simp [specScaleEntry, h, sectionHasDamage_spec]
  · push_neg at h
    simp [specScaleEntry, h.1, h.2]

end Rescaler

open Rescaler in
/-- Claim C1: for every weapon document and factor, the rescale operation
multiplies every `damage` attribute present in entries of the top-level
`weapons` and `meleeWeapons` mappings by the factor exactly once (the
implementation equals the spec-side single uniform pass `specScaleDoc`);
in particular rescaling the document with weapons.pistol.damage = 10 by
factor 5 yields weapons.pistol.damage = 50. -/
theorem C1_rescale_multiplies_each_damage_once :
    (∀ (d : Doc) (f : Int), (scaleDoc d f).1 = specScaleDoc f d) ∧
    scaleDoc [("weapons", .obj [("pistol", .obj [("damage", .num 10)])])] 5 =
      ([("weapons", .obj [("pistol", .obj [("damage", .num 50)])])], true) :=
  ⟨fun d f => by rw [scaleDoc_eq], rfl⟩

open Rescaler in
/-- Claim C4: the rescale operation is not idempotent: applying it twice
with factor f equals a single application with factor f * f, and on the
pistol document damage 10 becomes 50 after one run and 250 (= 10 * 25)
after a second run, which differs from the once-rescaled document. -/
theorem C4_rescale_twice_equals_factor_squared :
    (∀ (d : Doc) (f : Int),
      scaleDoc (scaleDoc d f).1 f = scaleDoc d (f * f)) ∧
    (scaleDoc [("weapons", .obj [("pistol", .obj [("damage", .num 10)])])] 5).1 =
      [("weapons", .obj [("pistol", .obj [("damage", .num 50)])])] ∧
    (scaleDoc (scaleDoc
        [("weapons", .obj [("pistol", .obj [("damage", .num 10)])])] 5).1 5).1 =
      [("weapons", .obj [("pistol", .obj [("damage", .num 250)])])] ∧
    (scaleDoc (scaleDoc
        [("weapons", .obj [("pistol", .obj [("damage", .num 10)])])] 5).1 5).1 ≠
      (scaleDoc [("weapons", .obj [("pistol", .obj [("damage", .num 10)])])] 5).1 := by
  refine ⟨fun d f => ?_, rfl, rfl, fun h => ?_⟩
  · simp only [scaleDoc_eq]
    rw [specScaleDoc_comp, docHasDamage_spec]
  · have h' : ([("weapons", JSON.obj [("pistol", JSON.obj [("damage", JSON.num 250)])])] : Doc)
        = [("weapons", JSON.obj [("pistol", JSON.obj [("damage", JSON.num 50)])])] := h
    simp at h'

open Rescaler in
/-- Claim C6: the document is written back only if at least one damage
replacement occurred: with no `damage` attribute in any entry of `weapons`
or `meleeWeapons` the operation returns the file content untouched (no
write) and reports no change; and whatever the document, everything other
than the replaced damage values — all other fields, and the key order of
every mapping — is preserved (the damage-masked documents are equal). -/
theorem C6_write_only_when_changed (d : Doc) (f : Int) :
    (docHasDamage d = false →
      scale_weapon_damage (.valid d) f = .ok (.valid d, false)) ∧
    maskDoc (scaleDoc d f).1 = maskDoc d := by
  constructor
  · intro h
    simp only [scale_weapon_damage, scaleDoc_eq, h]
    rfl
  · simp only [scaleDoc_eq]
    exact maskDoc_spec f d

/-- Witness for C6 at a concrete document with no damage fields. -/
theorem C6_write_only_when_changed_witness :
    Rescaler.docHasDamage [("name", .str "colt")] = false ∧
    Rescaler.scale_weapon_damage (.valid [("name", .str "colt")]) 5 =
      .ok (.valid [("name", .str "colt")], false) :=
  ⟨rfl, (C6_write_only_when_changed [("name", .str "colt")] 5).1 rfl⟩

open Rescaler in
/-- Claim C9: the rescale reports `changed = true` iff at least one entry of
`weapons` or `meleeWeapons` possesses a `damage` key, regardless of whether
the new value differs from the old; in particular a document whose only
damage value is 0 is still reported as changed and written back. -/
theorem C9_changed_iff_damage_key_present :
    (∀ (d : Doc) (f : Int), (scaleDoc d f).2 = docHasDamage d) ∧
    scale_weapon_damage
        (.valid [("weapons", .obj [("knife", .obj [("damage", .num 0)])])]) 5 =
      .ok (.valid [("weapons", .obj [("knife", .obj [("damage", .num 0)])])], true) :=
  ⟨fun d f => by rw [scaleDoc_eq], rfl⟩

namespace Rescaler

/-- The filesystem as the rescaler sees it: a set of existing directories
and a finite map from file paths to contents. -/
structure FS where
  dirs : List String
  files : List (String × FileContent)

/-- Path lookup in the file map (first match). -/
def fsLookup : List (String × FileContent) → String → Option FileContent
  | [], _ => none
  | q :: rest, p => if q.1 = p then some q.2 else fsLookup rest p

/-- Overwrite the content stored at an existing path. -/
def fsUpdate (l : List (String × FileContent)) (p : String) (c : FileContent) :
    List (String × FileContent) :=
  l.map fun q => if q.1 = p then (q.1, c) else q

/-- `scale_weapon_damage` as a filesystem step: open the file (a missing
path raises, like `open`), run the transformation, and perform the write
only when `changes_made` is true. -/
def runScaleFile (fs : FS) (path : String) (factor : Int) :
    Except Unit (FS × Bool) :=
  match fsLookup fs.files path with
  | none => .error ()
  | some c =>
    match scale_weapon_damage c factor with
    | .error e => .error e
    | .ok (c2, changed) =>
      .ok (if changed then { fs with files := fsUpdate fs.files path c2 } else fs,
           changed)

/-- `base_dir` of main (line 52). -/
def base_dir : String := "src/main/resources/data/themes"

/-- The fixed theme list of main (line 53). -/
def themes : List String := ["test_theme", "civil_war"]

/-- The fixed weapon-file list of main (line 54). -/
def weapon_files : List String := ["ranged-weapons.json", "melee-weapons.json"]

/-- `os.path.join(base_dir, theme)` (line 64). -/
def themePath (theme : String) : String := base_dir ++ "/" ++ theme

/-- `os.path.join(theme_dir, weapon_file)` (line 71). -/
def weaponFilePath (theme wf : String) : String := themePath theme ++ "/" ++ wf

/-- `os.path.exists` on a directory. -/
def dirExists (fs : FS) (d : String) : Bool := fs.dirs.contains d

/-- `os.path.exists` on a file. -/
def fileExists (fs : FS) (p : String) : Bool := (fsLookup fs.files p).isSome

/-- The inner loop of main (lines 70-77): for each weapon file of a theme,
if the file exists run scale_weapon_damage on it (counting changed files);
a missing file is only reported.  An uncaught exception aborts the run,
carrying the filesystem state reached so far. -/
def processFiles (theme : String) : List String → FS → Except FS (FS × Nat)
  | [], fs => .ok (fs, 0)
  | wf :: rest, fs =>
    if fileExists fs (weaponFilePath theme wf) then
      match runScaleFile fs (weaponFilePath theme wf) 5 with
      | .error _ => .error fs
      | .ok (fs2, changed) =>
        match processFiles theme rest fs2 with
        | .error e => .error e
        | .ok (fs3, n) => .ok (fs3, (if changed then 1 else 0) + n)
    else processFiles theme rest fs

/-- The outer loop of main (lines 62-77): a missing theme directory is only
reported and skipped. -/
def processThemes : List String → FS → Except FS (FS × Nat)
  | [], fs => .ok (fs, 0)
  | theme :: rest, fs =>
    if dirExists fs (themePath theme) then
      match processFiles theme weapon_files fs with
      | .error e => .error e
      | .ok (fs2, n) =>
        match processThemes rest fs2 with
        | .error e => .error e
        | .ok (fs3, m) => .ok (fs3, n + m)
    else processThemes rest fs

/-- main (lines 50-83) as a whole-process function: the final filesystem and
the process exit code.  A normal pass exits 0; an uncaught exception (the
only one possible is the propagated json.load error) makes Python exit 1. -/
def main (fs : FS) : FS × Nat :=
  match processThemes themes fs with
  | .ok (fs2, _) => (fs2, 0)
  | .error e => (e, 1)

/-- Whether the path holds a file whose content is malformed JSON. -/
def isMalformedAt (l : List (String × FileContent)) (p : String) : Bool :=
  match fsLookup l p with
  | some .malformed => true
  | _ => false

/-- Whether, among the given themes, some existing theme directory holds a
weapon file with malformed JSON — exactly the files on which main's pass
trips over the propagated parse error. -/
def reachMalformedOver (fs : FS) (ts : List String) : Bool :=
  ts.any fun theme =>
    dirExists fs (themePath theme) &&
      weapon_files.any fun wf => isMalformedAt fs.files (weaponFilePath theme wf)

/-- Whether main's fixed enumeration reaches a malformed file. -/
def reachMalformed (fs : FS) : Bool := reachMalformedOver fs themes

/-- Invariant linking filesystem states along a run: directories unchanged,
the same paths exist, and exactly the same paths hold malformed content
(the run only ever rewrites files it successfully parsed). -/
def FSsim (fs fs2 : FS) : Prop :=
  fs2.dirs = fs.dirs ∧
  (∀ q, (fsLookup fs2.files q).isSome = (fsLookup fs.files q).isSome) ∧
  (∀ q, isMalformedAt fs2.files q = isMalformedAt fs.files q)

theorem FSsim_refl (fs : FS) : FSsim fs fs :=
  ⟨rfl, fun _ => rfl, fun _ => rfl⟩

theorem FSsim_trans {fs1 fs2 fs3 : FS} (h1 : FSsim fs1 fs2) (h2 : FSsim fs2 fs3) :
    FSsim fs1 fs3 :=
  ⟨h2.1.trans h1.1, fun q => (h2.2.1 q).trans (h1.2.1 q),
   fun q => (h2.2.2 q).trans (h1.2.2 q)⟩

end Rescaler
namespace Rescaler

theorem fsLookup_fsUpdate (l : List (String × FileContent)) (p : String)
    (c : FileContent) (q : String) :
    fsLookup (fsUpdate l p c) q =
      if q = p then (fsLookup l p).map fun _ => c else fsLookup l q := by
  induction l with
  | nil => simp [fsUpdate, fsLookup]
  | cons a rest ih =>
    simp only [fsUpdate, List.map_cons] at ih ⊢
    by_cases h1 : a.1 = p
    · by_cases h2 : q = p
      · subst h2
        simp [fsLookup, h1]
      · have h3 : ¬a.1 = q := fun h => h2 (h.symm.trans h1)
        have h4 : ¬p = q := fun h => h2 h.symm
        simp [fsLookup, h1, h2, h3, h4, ih]
    · by_cases h2 : q = p
      · subst h2
        have h3 : ¬a.1 = q := h1
        simp [fsLookup, h1, h3, ih]
      · by_cases h3 : a.1 = q
        · simp [fsLookup, h1, h2, h3]
        · simp [fsLookup, h1, h2, h3, ih]

theorem isMalformedAt_of_not_exists {l : List (String × FileContent)} {p : String}
    (h : (fsLookup l p).isSome = false) : isMalformedAt l p = false := by
  unfold isMalformedAt
  cases hl : fsLookup l p with
  | none => rfl
  | some c => rw [hl] at h; simp at h

theorem runScaleFile_error_of_malformed (fs : FS) (p : String) (f : Int)
    (h : isMalformedAt fs.files p = true) : runScaleFile fs p f = .error () := by
  unfold isMalformedAt at h
  unfold runScaleFile
  cases hl : fsLookup fs.files p with
  | none => rfl
  | some c =>
    cases c with
    | malformed => rfl
    | valid d => rw [hl] at h; simp at h

theorem runScaleFile_ok_of_valid (fs : FS) (p : String) (f : Int) (d : Doc)
    (h : fsLookup fs.files p = some (.valid d)) :
    ∃ fs2 changed, runScaleFile fs p f = .ok (fs2, changed) ∧ FSsim fs fs2 := by
  unfold runScaleFile
  rw [h]
  cases hc : (scaleDoc d f).2 with
  | false =>
    refine ⟨fs, false, ?_, FSsim_refl fs⟩
    simp [scale_weapon_damage, hc]
  | true =>
    refine ⟨{ fs with files := fsUpdate fs.files p (.valid (scaleDoc d f).1) },
      true, ?_, ?_⟩
    · simp [scale_weapon_damage, hc]
    · refine ⟨rfl, fun q => ?_, fun q => ?_⟩
      · simp only [fsLookup_fsUpdate]
        by_cases hq : q = p
        · subst hq; rw [h]; simp
        · simp [hq]
      · simp only [isMalformedAt, fsLookup_fsUpdate]
        by_cases hq : q = p
        · subst hq; rw [h]; simp
        · simp [hq]

theorem FSsim_reachOver {fs fs2 : FS} (hs : FSsim fs fs2) (ts : List String) :
    reachMalformedOver fs2 ts = reachMalformedOver fs ts := by
  unfold reachMalformedOver
  refine ListFacts.any_eqOf fun theme _ => ?_
  rw [show dirExists fs2 (themePath theme) = dirExists fs (themePath theme) by
    unfold dirExists; rw [hs.1]]
  refine congrArg (_ && ·) (ListFacts.any_eqOf fun wf _ => ?_)
  exact hs.2.2 (weaponFilePath theme wf)

theorem processFiles_spec (theme : String) (wfs : List String) :
    ∀ fs : FS,
      (∀ e, processFiles theme wfs fs = .error e →
        FSsim fs e ∧
          (wfs.any fun wf => isMalformedAt fs.files (weaponFilePath theme wf)) = true) ∧
      (∀ fs2 n, processFiles theme wfs fs = .ok (fs2, n) →
        FSsim fs fs2 ∧
          (wfs.any fun wf => isMalformedAt fs.files (weaponFilePath theme wf)) = false) := by
  induction wfs with
  | nil =>
    intro fs
    refine ⟨fun e he => by simp [processFiles] at he, fun fs2 n hok => ?_⟩
    simp only [processFiles] at hok
    cases hok
    exact ⟨FSsim_refl fs, rfl⟩
  | cons wf rest ih =>
    intro fs
    by_cases hfe : fileExists fs (weaponFilePath theme wf) = true
    · cases hm : isMalformedAt fs.files (weaponFilePath theme wf) with
      | true =>
        have herr := runScaleFile_error_of_malformed fs (weaponFilePath theme wf) 5 hm
        have hstep : processFiles theme (wf :: rest) fs = .error fs := by
          simp only [processFiles]
          rw [if_pos hfe, herr]
        refine ⟨fun e he => ?_, fun fs2 n hok => ?_⟩
        · rw [hstep] at he
          cases he
          exact ⟨FSsim_refl fs, by rw [List.any_cons, hm]; rfl⟩
        · rw [hstep] at hok
          exact Except.noConfusion hok
      | false =>
        obtain ⟨d, hd⟩ : ∃ d, fsLookup fs.files (weaponFilePath theme wf) = some (.valid d) := by
          unfold fileExists at hfe
          unfold isMalformedAt at hm
          cases hl : fsLookup fs.files (weaponFilePath theme wf) with
          | none => rw [hl] at hfe; simp at hfe
          | some c =>
            cases c with
            | malformed => rw [hl] at hm; simp at hm
            | valid d => exact ⟨d, rfl⟩
        obtain ⟨fsa, ch, hrun, hsim⟩ :=
          runScaleFile_ok_of_valid fs (weaponFilePath theme wf) 5 d hd
        have hany2 : ∀ b : Bool,
            (rest.any fun wf2 => isMalformedAt fsa.files (weaponFilePath theme wf2)) = b →
            ((wf :: rest).any fun wf2 => isMalformedAt fs.files (weaponFilePath theme wf2)) = b := by
          intro b hb
          rw [List.any_cons, hm,
            ListFacts.any_eqOf fun wf2 _ => (hsim.2.2 (weaponFilePath theme wf2)).symm, hb]
          cases b <;> rfl
        refine ⟨fun e he => ?_, fun fs2 n hok => ?_⟩
        · have hstep : processFiles theme (wf :: rest) fs =
              match processFiles theme rest fsa with
              | .error e2 => .error e2
              | .ok (fs3, n) => .ok (fs3, (if ch then 1 else 0) + n) := by
            simp only [processFiles]
            rw [if_pos hfe, hrun]
          rw [hstep] at he
          cases hrec : processFiles theme rest fsa with
          | error e2 =>
            rw [hrec] at he
            cases he
            obtain ⟨hsim2, hany⟩ := (ih fsa).1 e hrec
            exact ⟨FSsim_trans hsim hsim2, hany2 true hany⟩
          | ok pr =>
            rw [hrec] at he
            exact Except.noConfusion he
        · have hstep : processFiles theme (wf :: rest) fs =
              match processFiles theme rest fsa with
              | .error e2 => .error e2
              | .ok (fs3, n) => .ok (fs3, (if ch then 1 else 0) + n) := by
            simp only [processFiles]
            rw [if_pos hfe, hrun]
          rw [hstep] at hok
          cases hrec : processFiles theme rest fsa with
          | error e2 =>
            rw [hrec] at hok
            exact Except.noConfusion hok
          | ok pr =>
            rw [hrec] at hok
            cases hok
            obtain ⟨hsim2, hany⟩ := (ih fsa).2 pr.1 pr.2 (by rw [hrec])
            exact ⟨FSsim_trans hsim hsim2, hany2 false hany⟩
    · have hfe2 : fileExists fs (weaponFilePath theme wf) = false := Bool.eq_false_iff.mpr hfe
      have hm : isMalformedAt fs.files (weaponFilePath theme wf) = false :=
        isMalformedAt_of_not_exists hfe2
      have hstep : processFiles theme (wf :: rest) fs = processFiles theme rest fs := by
        simp only [processFiles]
        rw [if_neg hfe]
      refine ⟨fun e he => ?_, fun fs2 n hok => ?_⟩
      · rw [hstep] at he
        obtain ⟨hsim2, hany⟩ := (ih fs).1 e he
        exact ⟨hsim2, by rw [List.any_cons, hm, hany]; rfl⟩
      · rw [hstep] at hok
        obtain ⟨hsim2, hany⟩ := (ih fs).2 fs2 n hok
        exact ⟨hsim2, by rw [List.any_cons, hm, hany]; rfl⟩

end Rescaler

namespace Rescaler

theorem processThemes_spec (ts : List String) :
    ∀ fs : FS,
      (∀ e, processThemes ts fs = .error e →
        FSsim fs e ∧ reachMalformedOver fs ts = true) ∧
      (∀ fs2 n, processThemes ts fs = .ok (fs2, n) →
        FSsim fs fs2 ∧ reachMalformedOver fs ts = false) := by
  induction ts with
  | nil =>
    intro fs
    refine ⟨fun e he => by simp [processThemes] at he, fun fs2 n hok => ?_⟩
    simp only [processThemes] at hok
    cases hok
    exact ⟨FSsim_refl fs, rfl⟩
  | cons theme rest ih =>
    intro fs
    have hreach : ∀ (fs3 : FS) (b1 b2 : Bool),
        (dirExists fs (themePath theme) &&
          (weapon_files.any fun wf => isMalformedAt fs.files (weaponFilePath theme wf))) = b1 →
        FSsim fs fs3 → reachMalformedOver fs3 rest = b2 →
        reachMalformedOver fs (theme :: rest) = (b1 || b2) := by
      intro fs3 b1 b2 hb1 hsim hb2
      rw [reachMalformedOver, List.any_cons, hb1]
      rw [show (rest.any fun t => dirExists fs (themePath t) &&
            (weapon_files.any fun wf => isMalformedAt fs.files (weaponFilePath t wf)))
          = reachMalformedOver fs rest from rfl]
      rw [← FSsim_reachOver hsim rest, hb2]
    by_cases hd : dirExists fs (themePath theme) = true
    · cases hpf : processFiles theme weapon_files fs with
      | error e1 =>
        obtain ⟨hsim1, hany1⟩ := (processFiles_spec theme weapon_files fs).1 e1 hpf
        have hstep : processThemes (theme :: rest) fs = .error e1 := by
          simp only [processThemes]
          rw [if_pos hd, hpf]
        refine ⟨fun e he => ?_, fun fs2 n hok => ?_⟩
        · rw [hstep] at he
          cases he
          refine ⟨hsim1, ?_⟩
          rw [hreach fs true (reachMalformedOver fs rest) (by rw [hd, hany1]; rfl)
            (FSsim_refl fs) rfl]
          rfl
        · rw [hstep] at hok
          exact Except.noConfusion hok
      | ok pr1 =>
        obtain ⟨hsim1, hany1⟩ :=
          (processFiles_spec theme weapon_files fs).2 pr1.1 pr1.2 (by rw [hpf])
        have hstep : processThemes (theme :: rest) fs =
            match processThemes rest pr1.1 with
            | .error e2 => .error e2
            | .ok (fs3, m) => .ok (fs3, pr1.2 + m) := by
          simp only [processThemes]
          rw [if_pos hd, hpf]
        refine ⟨fun e he => ?_, fun fs2 n hok => ?_⟩
        · rw [hstep] at he
          cases hrec : processThemes rest pr1.1 with
          | error e2 =>
            rw [hrec] at he
            cases he
            obtain ⟨hsim2, hany2⟩ := (ih pr1.1).1 e hrec
            refine ⟨FSsim_trans hsim1 hsim2, ?_⟩
            rw [hreach pr1.1 false true (by rw [hd, hany1]; rfl) hsim1 hany2]
            rfl
          | ok pr2 =>
            rw [hrec] at he
            exact Except.noConfusion he
        · rw [hstep] at hok
          cases hrec : processThemes rest pr1.1 with
          | error e2 =>
            rw [hrec] at hok
            exact Except.noConfusion hok
          | ok pr2 =>
            rw [hrec] at hok
            cases hok
            obtain ⟨hsim2, hany2⟩ := (ih pr1.1).2 pr2.1 pr2.2 (by rw [hrec])
            refine ⟨FSsim_trans hsim1 hsim2, ?_⟩
            rw [hreach pr1.1 false false (by rw [hd, hany1]; rfl) hsim1 hany2]
            rfl
    · have hd2 : dirExists fs (themePath theme) = false := Bool.eq_false_iff.mpr hd
      have hstep : processThemes (theme :: rest) fs = processThemes rest fs := by
        simp only [processThemes]
        rw [if_neg hd]
      refine ⟨fun e he => ?_, fun fs2 n hok => ?_⟩
      · rw [hstep] at he
        obtain ⟨hsim2, hany2⟩ := (ih fs).1 e he
        refine ⟨hsim2, ?_⟩
        rw [hreach fs false true (by rw [hd2]; rfl) (FSsim_refl fs) hany2]
        rfl
      · rw [hstep] at hok
        obtain ⟨hsim2, hany2⟩ := (ih fs).2 fs2 n hok
        refine ⟨hsim2, ?_⟩
        rw [hreach fs false false (by rw [hd2]; rfl) (FSsim_refl fs) hany2]
        rfl

/-- main exits 0 exactly when its fixed enumeration reaches no malformed
file; a reached malformed file propagates uncaught and Python exits 1. -/
theorem main_exit (fs : FS) :
    (main fs).2 = if reachMalformed fs then 1 else 0 := by
  unfold main
  cases hpt : processThemes themes fs with
  | error e =>
    obtain ⟨_, hr⟩ := (processThemes_spec themes fs).1 e hpt
    rw [show reachMalformed fs = true from hr]
    rfl
  | ok pr =>
    obtain ⟨_, hr⟩ := (processThemes_spec themes fs).2 pr.1 pr.2 (by rw [hpt])
    rw [show reachMalformed fs = false from hr]
    rfl

/-- A whole run of main never creates, deletes, or corrupts files: the same
paths exist afterwards and the same paths hold malformed content. -/
theorem main_sim (fs : FS) : FSsim fs (main fs).1 := by
  unfold main
  cases hpt : processThemes themes fs with
  | error e => exact ((processThemes_spec themes fs).1 e hpt).1
  | ok pr => exact ((processThemes_spec themes fs).2 pr.1 pr.2 (by rw [hpt])).1

end Rescaler

/-- Claim C2 counterexample: on a filesystem whose test_theme directory
exists and whose ranged-weapons.json contains malformed JSON, the driving
routine does not exit 0 — the json.load error propagates uncaught and the
process exits 1. -/
theorem C2_counterexample_nonzero_exit :
    (Rescaler.main
      { dirs := ["src/main/resources/data/themes/test_theme"],
        files := [("src/main/resources/data/themes/test_theme/ranged-weapons.json",
          .malformed)] }).2 ≠ 0 := by
  decide

/-- Claim C2, amended: the driving routine exits 0 for exactly those inputs
in which its fixed enumeration reaches no malformed JSON file (missing
theme directories and missing files are reported and skipped, never fatal);
when it reaches a malformed file the parse error propagates uncaught and
the exit code is 1. -/
theorem C2_exit_zero_unless_malformed_reached (fs : Rescaler.FS) :
    (Rescaler.main fs).2 = if Rescaler.reachMalformed fs then 1 else 0 :=
  Rescaler.main_exit fs

/-- Claim C7: for a file containing malformed JSON, scale_weapon_damage
raises (propagates) the parse error instead of catching it: the per-file
operation yields an error and performs no write (the file stays malformed,
hence byte-for-byte unchanged, across the whole run), and once such a file
is reached the entire run aborts with exit code 1. -/
theorem C7_malformed_json_propagates (fs : Rescaler.FS) (p : String) (f : Int)
    (h : Rescaler.isMalformedAt fs.files p = true) :
    Rescaler.scale_weapon_damage .malformed f = .error () ∧
    Rescaler.runScaleFile fs p f = .error () ∧
    Rescaler.isMalformedAt (Rescaler.main fs).1.files p = true ∧
    (Rescaler.reachMalformed fs = true → (Rescaler.main fs).2 = 1) :=
  ⟨rfl,
   Rescaler.runScaleFile_error_of_malformed fs p f h,
   by rw [(Rescaler.main_sim fs).2.2 p]; exact h,
   fun hr => by rw [Rescaler.main_exit fs, hr]; rfl⟩

/-- Witness for C7 at a concrete filesystem holding one malformed weapon
file in an existing theme directory. -/
theorem C7_malformed_json_propagates_witness :
    Rescaler.runScaleFile
      { dirs := ["src/main/resources/data/themes/civil_war"],
        files := [("src/main/resources/data/themes/civil_war/melee-weapons.json",
          .malformed)] }
      "src/main/resources/data/themes/civil_war/melee-weapons.json" 5 = .error () ∧
    (Rescaler.main
      { dirs := ["src/main/resources/data/themes/civil_war"],
        files := [("src/main/resources/data/themes/civil_war/melee-weapons.json",
          .malformed)] }).2 = 1 :=
  ⟨(C7_malformed_json_propagates
      { dirs := ["src/main/resources/data/themes/civil_war"],
        files := [("src/main/resources/data/themes/civil_war/melee-weapons.json",
          .malformed)] }
      "src/main/resources/data/themes/civil_war/melee-weapons.json" 5 rfl).2.1,
   (C7_malformed_json_propagates
      { dirs := ["src/main/resources/data/themes/civil_war"],
        files := [("src/main/resources/data/themes/civil_war/melee-weapons.json",
          .malformed)] }
      "src/main/resources/data/themes/civil_war/melee-weapons.json" 5 rfl).2.2.2 rfl⟩

namespace Relocator

/-- The plans directory as the relocator sees it: whether the completed/
subdirectory exists, the files of the plans directory, and the files of the
completed directory, each as (name, content) pairs. -/
structure PlansFS where
  completedDirExists : Bool
  planFiles : List (String × String)
  completedFiles : List (String × String)

/-- Zero-pad a cycle number to four digits: the format `cycle_number:04d`
of move_cycle_to_completed.py line 40 (main only passes values in
[1, 9999]). -/
def pad4 (n : Nat) : String :=
  if n < 10 then "000" ++ toString n
  else if n < 100 then "00" ++ toString n
  else if n < 1000 then "0" ++ toString n
  else toString n

/-- The glob pattern stem of line 43 (without the trailing star):
files match when their name starts with this string. -/
def cyclePattern (n : Nat) : String := "DevCycle_2025_" ++ pad4 n

/-- Whether a file name matches the glob pattern `stem*`: the pattern stem
contains no glob metacharacters (only letters, digits and underscores), so
the match is exactly a starts-with test. -/
def matchesPattern (name stem : String) : Bool := stem.data.isPrefixOf name.data

/-- `destination.exists()` (line 60): whether the completed directory
already holds a file of this name. -/
def destExists (completed : List (String × String)) (name : String) : Bool :=
  completed.any fun q => q.1 == name

/-- The per-file loop of move_cycle_files (lines 55-71), over the matched
files in order.  `oracle name` tells whether `shutil.move` succeeds for
that file; a raised exception is caught by the per-file `except` and only
reported, so the loop continues.  Returns the names moved, the resulting
completed-directory contents, and `moved_count`. -/
def moveLoop (oracle : String → Bool) :
    List (String × String) → List (String × String) →
    List String × List (String × String) × Nat
  | [], completed => ([], completed, 0)
  | f :: rest, completed =>
    if destExists completed f.1 then
      moveLoop oracle rest completed
    else if oracle f.1 then
      let r := moveLoop oracle rest (completed ++ [f])
      (f.1 :: r.1, r.2.1, r.2.2 + 1)
    else
      moveLoop oracle rest completed

/-- move_cycle_files (lines 25-72): create completed/ (mkdir with
exist_ok, before globbing), glob the matches, return early when there are
none, otherwise move each match unless its name already exists at the
destination.  A moved file leaves the plans directory and appears with its
content in completed/. -/
def move_cycle_files (fs : PlansFS) (oracle : String → Bool) (n : Nat) :
    PlansFS × Nat :=
  let hits := fs.planFiles.filter fun f => matchesPattern f.1 (cyclePattern n)
  if hits.isEmpty then ({ fs with completedDirExists := true }, 0)
  else
    let r := moveLoop oracle hits fs.completedFiles
    ({ completedDirExists := true,
       planFiles := fs.planFiles.filter fun f => !(r.1.contains f.1),
       completedFiles := r.2.1 }, r.2.2)

/-- The value of a nonempty all-digit character sequence, else none. -/
def digitsVal (cs : List Char) : Option Nat :=
  if cs.isEmpty then none
  else if cs.all Char.isDigit then
    some (cs.foldl (fun a c => a * 10 + (c.toNat - 48)) 0)
  else none

/-- Python's `int(s)` on a command-line argument, for plain decimal
literals with an optional sign; `none` is the ValueError case.  (Python
additionally strips surrounding whitespace and allows digit-group
underscores; those inputs are not modelled.) -/
def pythonInt (s : String) : Option Int :=
  match s.data with
  | '-' :: rest => (digitsVal rest).map fun m => -(m : Int)
  | '+' :: rest => (digitsVal rest).map fun m => (m : Int)
  | cs => (digitsVal cs).map fun m => (m : Int)

/-- The distinct console messages main can end with. -/
inductive RelocOutcome where
  | usageError
  | notAnInteger
  | outOfRange
  | completedRun (count : Nat)

/-- main (lines 75-97) as a whole-process function over the user arguments
(sys.argv minus the program name): outcome message, final filesystem, and
exit code.  `sys.exit(1)` raises SystemExit, which the `except` clauses do
not catch, so each rejection path really exits.  Both rejections happen
before any filesystem access. -/
def main (args : List String) (fs : PlansFS) (oracle : String → Bool) :
    RelocOutcome × PlansFS × Nat :=
  match args with
  | [arg] =>
    match pythonInt arg with
    | none => (.notAnInteger, fs, 1)
    | some n =>
      if n < 1 ∨ 9999 < n then (.outOfRange, fs, 1)
      else
        let r := move_cycle_files fs oracle n.toNat
        (.completedRun r.2, r.1, 0)
  | _ => (.usageError, fs, 1)

end Relocator

namespace Relocator

theorem moveLoop_completed_mono (oracle : String → Bool) :
    ∀ (m c : List (String × String)) (x : String × String),
      x ∈ c → x ∈ (moveLoop oracle m c).2.1
  | [], _, _, hx => hx
  | f :: rest, c, x, hx => by
    simp only [moveLoop]
    split
    · exact moveLoop_completed_mono oracle rest c x hx
    · split
      · exact moveLoop_completed_mono oracle rest (c ++ [f]) x (List.mem_append_left _ hx)
      · exact moveLoop_completed_mono oracle rest c x hx

theorem destExists_append (c : List (String × String)) (g : String × String)
    (name : String) :
    destExists (c ++ [g]) name = (destExists c name || (g.1 == name)) := by
  simp [destExists, List.any_append]

theorem moveLoop_length (oracle : String → Bool) :
    ∀ (m c : List (String × String)),
      (moveLoop oracle m c).2.1.length = c.length + (moveLoop oracle m c).2.2
  | [], c => by simp [moveLoop]
  | f :: rest, c => by
    simp only [moveLoop]
    split
    · exact moveLoop_length oracle rest c
    · split
      · have h := moveLoop_length oracle rest (c ++ [f])
        simp only [List.length_append, List.length_cons, List.length_nil] at h
        show (moveLoop oracle rest (c ++ [f])).2.1.length =
          c.length + ((moveLoop oracle rest (c ++ [f])).2.2 + 1)
        omega
      · exact moveLoop_length oracle rest c

theorem moveLoop_not_moved_of_dest (oracle : String → Bool) :
    ∀ (m c : List (String × String)) (name : String),
      destExists c name = true → name ∉ (moveLoop oracle m c).1
  | [], _, _, _ => List.not_mem_nil _
  | f :: rest, c, name, h => by
    simp only [moveLoop]
    split
    · exact moveLoop_not_moved_of_dest oracle rest c name h
    · next hdest =>
      split
      · intro hmem
        rcases List.mem_cons.mp hmem with heq | hmem2
        · rw [heq] at h
          exact hdest h
        · exact moveLoop_not_moved_of_dest oracle rest (c ++ [f]) name
            (by rw [destExists_append, h]; rfl) hmem2
      · exact moveLoop_not_moved_of_dest oracle rest c name h

theorem moveLoop_not_moved_of_oracle (oracle : String → Bool) :
    ∀ (m c : List (String × String)) (name : String),
      oracle name = false → name ∉ (moveLoop oracle m c).1
  | [], _, _, _ => List.not_mem_nil _
  | f :: rest, c, name, h => by
    simp only [moveLoop]
    split
    · exact moveLoop_not_moved_of_oracle oracle rest c name h
    · split
      · next ho =>
        intro hmem
        rcases List.mem_cons.mp hmem with heq | hmem2
        · rw [← heq] at ho
          rw [h] at ho
          exact Bool.noConfusion ho
        · exact moveLoop_not_moved_of_oracle oracle rest (c ++ [f]) name h hmem2
      · exact moveLoop_not_moved_of_oracle oracle rest c name h

theorem moveLoop_moves (oracle : String → Bool) :
    ∀ (m c : List (String × String)) (f : String × String),
      (m.map Prod.fst).Nodup → f ∈ m →
      destExists c f.1 = false → oracle f.1 = true →
      f.1 ∈ (moveLoop oracle m c).1 ∧ f ∈ (moveLoop oracle m c).2.1
  | [], _, f, _, hf, _, _ => absurd hf (List.not_mem_nil f)
  | g :: rest, c, f, hnd, hf, hdest, ho => by
    rw [List.map_cons] at hnd
    have hnd0 := List.nodup_cons.mp hnd
    rcases List.mem_cons.mp hf with heq | hmem
    · subst heq
      simp only [moveLoop]
      rw [if_neg (fun hcon => Bool.noConfusion (hdest.symm.trans hcon)), if_pos ho]
      refine ⟨List.mem_cons_self _ _, ?_⟩
      exact moveLoop_completed_mono oracle rest (c ++ [f]) f
        (List.mem_append_right _ (by simp))
    · have hne : g.1 ≠ f.1 := fun h => hnd0.1 (by rw [h]; exact List.mem_map_of_mem Prod.fst hmem)
      simp only [moveLoop]
      split
      · exact moveLoop_moves oracle rest c f hnd0.2 hmem hdest ho
      · split
        · have hdest2 : destExists (c ++ [g]) f.1 = false := by
            rw [destExists_append, hdest]
            simp [hne]
          have hrec := moveLoop_moves oracle rest (c ++ [g]) f hnd0.2 hmem hdest2 ho
          exact ⟨List.mem_cons_of_mem _ hrec.1, hrec.2⟩
        · exact moveLoop_moves oracle rest c f hnd0.2 hmem hdest ho

theorem moveLoop_completed_mono_dest (oracle : String → Bool)
    (m c : List (String × String)) (name : String)
    (h : destExists c name = true) :
    destExists (moveLoop oracle m c).2.1 name = true := by
  rcases List.any_eq_true.mp h with ⟨x, hx, hbeq⟩
  exact List.any_eq_true.mpr ⟨x, moveLoop_completed_mono oracle m c x hx, hbeq⟩

theorem contains_true_iff_mem (l : List String) (a : String) :
    l.contains a = true ↔ a ∈ l := List.elem_iff

end Relocator

namespace Relocator

theorem hits_ne_empty {fs : PlansFS} {n : Nat} {x : String × String}
    (hx : x ∈ fs.planFiles.filter fun f => matchesPattern f.1 (cyclePattern n)) :
    (fs.planFiles.filter fun f => matchesPattern f.1 (cyclePattern n)).isEmpty = false := by
  cases hl : fs.planFiles.filter fun f => matchesPattern f.1 (cyclePattern n) with
  | nil => rw [hl] at hx; exact absurd hx (List.not_mem_nil _)
  | cons a as => rfl

theorem hits_nodup {fs : PlansFS} {n : Nat}
    (hnd : (fs.planFiles.map Prod.fst).Nodup) :
    ((fs.planFiles.filter fun f => matchesPattern f.1 (cyclePattern n)).map Prod.fst).Nodup :=
  List.Nodup.sublist ((List.filter_sublist _).map Prod.fst) hnd

theorem move_cycle_files_eq (fs : PlansFS) (oracle : String → Bool) (n : Nat)
    (hne : (fs.planFiles.filter fun f => matchesPattern f.1 (cyclePattern n)).isEmpty = false) :
    move_cycle_files fs oracle n =
      ({ completedDirExists := true,
         planFiles := fs.planFiles.filter fun f =>
           !((moveLoop oracle
               (fs.planFiles.filter fun f2 => matchesPattern f2.1 (cyclePattern n))
               fs.completedFiles).1.contains f.1),
         completedFiles := (moveLoop oracle
             (fs.planFiles.filter fun f2 => matchesPattern f2.1 (cyclePattern n))
             fs.completedFiles).2.1 },
       (moveLoop oracle
           (fs.planFiles.filter fun f2 => matchesPattern f2.1 (cyclePattern n))
           fs.completedFiles).2.2) := by
  simp only [move_cycle_files]
  rw [if_neg (fun hcon => Bool.noConfusion (hne.symm.trans hcon))]

end Relocator

open Relocator in
/-- Claim C3: for every file of the plans directory whose name starts with
the computed prefix, after one run (with every move succeeding) the file is
in the completed directory and no longer in the plans directory — unless a
file of the same name already existed in completed, in which case the
source file stays in the plans directory unchanged and the pre-existing
destination file is untouched (the skip is not an error). -/
theorem C3_matching_files_moved_or_skipped (fs : PlansFS) (n : Nat)
    (name content : String)
    (hnd : (fs.planFiles.map Prod.fst).Nodup)
    (hmem : (name, content) ∈ fs.planFiles)
    (hpat : matchesPattern name (cyclePattern n) = true) :
    (destExists fs.completedFiles name = false →
      (name, content) ∈ (move_cycle_files fs (fun _ => true) n).1.completedFiles ∧
      ∀ c2, (name, c2) ∉ (move_cycle_files fs (fun _ => true) n).1.planFiles) ∧
    (destExists fs.completedFiles name = true →
      (name, content) ∈ (move_cycle_files fs (fun _ => true) n).1.planFiles ∧
      ∀ c2, (name, c2) ∈ fs.completedFiles →
        (name, c2) ∈ (move_cycle_files fs (fun _ => true) n).1.completedFiles) := by
  set L := fs.planFiles.filter fun f => matchesPattern f.1 (cyclePattern n) with hL
  have hmem2 : (name, content) ∈ L := List.mem_filter.mpr ⟨hmem, hpat⟩
  rw [move_cycle_files_eq fs (fun _ => true) n (hits_ne_empty hmem2)]
  constructor
  · intro hdest
    have hmv := moveLoop_moves (fun _ => true) L fs.completedFiles (name, content)
      (hits_nodup hnd) hmem2 hdest rfl
    refine ⟨hmv.2, fun c2 hc2 => ?_⟩
    have hpred := (List.mem_filter.mp hc2).2
    have hct : (moveLoop (fun _ => true) L fs.completedFiles).1.contains name = true :=
      (contains_true_iff_mem _ _).mpr hmv.1
    rw [hct] at hpred
    exact Bool.noConfusion hpred
  · intro hdest
    have hnm : name ∉ (moveLoop (fun _ => true) L fs.completedFiles).1 :=
      moveLoop_not_moved_of_dest (fun _ => true) L fs.completedFiles name hdest
    refine ⟨List.mem_filter.mpr ⟨hmem, ?_⟩,
      fun c2 hc2 => moveLoop_completed_mono (fun _ => true) L fs.completedFiles (name, c2) hc2⟩
    have hcf : (moveLoop (fun _ => true) L fs.completedFiles).1.contains name = false := by
      cases hc : (moveLoop (fun _ => true) L fs.completedFiles).1.contains name
      · rfl
      · exact absurd ((contains_true_iff_mem _ _).mp hc) hnm
    show (!(moveLoop (fun _ => true) L fs.completedFiles).1.contains name) = true
    rw [hcf]
    rfl

open Relocator in
/-- Witness for C3: with both moves succeeding and an empty completed
directory, the matching file ends up in completed and is gone from plans. -/
theorem C3_matching_files_moved_or_skipped_witness :
    ("DevCycle_2025_0007_brainstorm.md", "text") ∈
      (move_cycle_files
        { completedDirExists := true,
          planFiles := [("DevCycle_2025_0007_brainstorm.md", "text"), ("README.md", "readme")],
          completedFiles := [] }
        (fun _ => true) 7).1.completedFiles ∧
    ∀ c2, ("DevCycle_2025_0007_brainstorm.md", c2) ∉
      (move_cycle_files
        { completedDirExists := true,
          planFiles := [("DevCycle_2025_0007_brainstorm.md", "text"), ("README.md", "readme")],
          completedFiles := [] }
        (fun _ => true) 7).1.planFiles :=
  (C3_matching_files_moved_or_skipped
    { completedDirExists := true,
      planFiles := [("DevCycle_2025_0007_brainstorm.md", "text"), ("README.md", "readme")],
      completedFiles := [] }
    7 "DevCycle_2025_0007_brainstorm.md" "text"
    (by decide) (by decide) (by decide)).1 rfl

open Relocator in
/-- Claim C8: a failure while moving one matching file (the oracle says
`shutil.move` raised) is caught per file and does not abort the remaining
matches: the failed file stays in the plans directory, a later movable
match is still moved, and the final count equals exactly the number of
files actually deposited in the completed directory — skipped and failed
files are not counted. -/
theorem C8_per_file_failures_isolated (fs : PlansFS) (oracle : String → Bool) (n : Nat) :
    (move_cycle_files fs oracle n).1.completedFiles.length =
      fs.completedFiles.length + (move_cycle_files fs oracle n).2 ∧
    (∀ name content, (name, content) ∈ fs.planFiles →
      matchesPattern name (cyclePattern n) = true → oracle name = false →
      (name, content) ∈ (move_cycle_files fs oracle n).1.planFiles) ∧
    ((fs.planFiles.map Prod.fst).Nodup →
      ∀ name content, (name, content) ∈ fs.planFiles →
      matchesPattern name (cyclePattern n) = true →
      destExists fs.completedFiles name = false → oracle name = true →
      (name, content) ∈ (move_cycle_files fs oracle n).1.completedFiles) := by
  set L := fs.planFiles.filter fun f => matchesPattern f.1 (cyclePattern n) with hL
  refine ⟨?_, fun name content hmem hpat ho => ?_, fun hnd name content hmem hpat hdest ho => ?_⟩
  · by_cases hemp : L.isEmpty = true
    · simp only [move_cycle_files]
      rw [if_pos hemp]
      rfl
    · rw [move_cycle_files_eq fs oracle n (Bool.eq_false_iff.mpr hemp)]
      exact moveLoop_length oracle L fs.completedFiles
  · have hmem2 : (name, content) ∈ L := List.mem_filter.mpr ⟨hmem, hpat⟩
    rw [move_cycle_files_eq fs oracle n (hits_ne_empty hmem2)]
    refine List.mem_filter.mpr ⟨hmem, ?_⟩
    have hnm : name ∉ (moveLoop oracle L fs.completedFiles).1 :=
      moveLoop_not_moved_of_oracle oracle L fs.completedFiles name ho
    have hcf : (moveLoop oracle L fs.completedFiles).1.contains name = false := by
      cases hc : (moveLoop oracle L fs.completedFiles).1.contains name
      · rfl
      · exact absurd ((contains_true_iff_mem _ _).mp hc) hnm
    show (!(moveLoop oracle L fs.completedFiles).1.contains name) = true
    rw [hcf]
    rfl
  · have hmem2 : (name, content) ∈ L := List.mem_filter.mpr ⟨hmem, hpat⟩
    rw [move_cycle_files_eq fs oracle n (hits_ne_empty hmem2)]
    exact (moveLoop_moves oracle L fs.completedFiles (name, content)
      (hits_nodup hnd) hmem2 hdest ho).2

open Relocator in
/-- Witness for C8: the move of DevCycle_2025_0013.md fails, yet
DevCycle_2025_0013_x.md is still moved afterwards and the failed file
stays in the plans directory. -/
theorem C8_per_file_failures_isolated_witness :
    ("DevCycle_2025_0013.md", "a") ∈
      (move_cycle_files
        { completedDirExists := true,
          planFiles := [("DevCycle_2025_0013.md", "a"), ("DevCycle_2025_0013_x.md", "b")],
          completedFiles := [] }
        (fun s => s == "DevCycle_2025_0013_x.md") 13).1.planFiles ∧
    ("DevCycle_2025_0013_x.md", "b") ∈
      (move_cycle_files
        { completedDirExists := true,
          planFiles := [("DevCycle_2025_0013.md", "a"), ("DevCycle_2025_0013_x.md", "b")],
          completedFiles := [] }
        (fun s => s == "DevCycle_2025_0013_x.md") 13).1.completedFiles :=
  ⟨(C8_per_file_failures_isolated
      { completedDirExists := true,
        planFiles := [("DevCycle_2025_0013.md", "a"), ("DevCycle_2025_0013_x.md", "b")],
        completedFiles := [] }
      (fun s => s == "DevCycle_2025_0013_x.md") 13).2.1
      "DevCycle_2025_0013.md" "a" (by decide) (by decide) rfl,
   (C8_per_file_failures_isolated
      { completedDirExists := true,
        planFiles := [("DevCycle_2025_0013.md", "a"), ("DevCycle_2025_0013_x.md", "b")],
        completedFiles := [] }
      (fun s => s == "DevCycle_2025_0013_x.md") 13).2.2
      (by decide) "DevCycle_2025_0013_x.md" "b" (by decide) (by decide) rfl rfl⟩

open Relocator in
/-- Claim C10: move_cycle_files creates the completed directory (mkdir with
exist_ok) before enumerating matches, so even a run with zero matching
files that moves nothing still mutates the filesystem when the directory
was absent. -/
theorem C10_completed_dir_created_before_matching
    (fs : PlansFS) (oracle : String → Bool) (n : Nat) :
    (move_cycle_files fs oracle n).1.completedDirExists = true ∧
    ((fs.planFiles.filter fun f => matchesPattern f.1 (cyclePattern n)) = [] →
      move_cycle_files fs oracle n = ({ fs with completedDirExists := true }, 0)) ∧
    (fs.completedDirExists = false → (move_cycle_files fs oracle n).1 ≠ fs) := by
  have h1 : (move_cycle_files fs oracle n).1.completedDirExists = true := by
    simp only [move_cycle_files]
    split
    · rfl
    · rfl
  refine ⟨h1, fun hemp => ?_, fun hfalse hcontra => ?_⟩
  · simp only [move_cycle_files]
    rw [if_pos (by rw [hemp]; rfl)]
  · rw [hcontra, hfalse] at h1
    exact Bool.noConfusion h1

open Relocator in
/-- Witness for C10: a plans directory with no matching file and no
completed/ directory is still mutated — completed/ gets created. -/
theorem C10_completed_dir_created_before_matching_witness :
    move_cycle_files
      { completedDirExists := false, planFiles := [("notes.md", "x")],
        completedFiles := [] } (fun _ => true) 13 =
      ({ completedDirExists := true, planFiles := [("notes.md", "x")],
         completedFiles := [] }, 0) ∧
    (move_cycle_files
      { completedDirExists := false, planFiles := [("notes.md", "x")],
        completedFiles := [] } (fun _ => true) 13).1 ≠
      { completedDirExists := false, planFiles := [("notes.md", "x")],
        completedFiles := [] } :=
  ⟨(C10_completed_dir_created_before_matching
      { completedDirExists := false, planFiles := [("notes.md", "x")],
        completedFiles := [] } (fun _ => true) 13).2.1 (by decide),
   (C10_completed_dir_created_before_matching
      { completedDirExists := false, planFiles := [("notes.md", "x")],
        completedFiles := [] } (fun _ => true) 13).2.2 rfl⟩

open Relocator in
/-- Claim C5: a command-line argument that is not an integer, or an integer
outside [1, 9999], makes the relocator exit 1 with no filesystem mutation
(the filesystem is returned exactly as given, the rejection happening
before any filesystem access), and the two cases produce distinct error
messages. -/
theorem C5_invalid_cycle_number_rejected (arg : String) (fs : PlansFS)
    (oracle : String → Bool) :
    (pythonInt arg = none →
      Relocator.main [arg] fs oracle = (.notAnInteger, fs, 1)) ∧
    (∀ n : Int, pythonInt arg = some n → (n < 1 ∨ 9999 < n) →
      Relocator.main [arg] fs oracle = (.outOfRange, fs, 1)) ∧
    RelocOutcome.notAnInteger ≠ RelocOutcome.outOfRange := by
  refine ⟨fun h => ?_, fun n h hr => ?_, fun h => RelocOutcome.noConfusion h⟩
  · simp only [Relocator.main, h]
  · simp only [Relocator.main, h]
    rw [if_pos hr]

open Relocator in
/-- Witness for C5: the non-integer argument "abc" and the out-of-range
argument "12345" are both rejected with exit code 1 and an untouched
filesystem. -/
theorem C5_invalid_cycle_number_rejected_witness :
    pythonInt "abc" = none ∧
    Relocator.main ["abc"]
      { completedDirExists := false, planFiles := [], completedFiles := [] }
      (fun _ => true) =
      (.notAnInteger,
       { completedDirExists := false, planFiles := [], completedFiles := [] }, 1) ∧
    pythonInt "12345" = some 12345 ∧
    Relocator.main ["12345"]
      { completedDirExists := false, planFiles := [], completedFiles := [] }
      (fun _ => true) =
      (.outOfRange,
       { completedDirExists := false, planFiles := [], completedFiles := [] }, 1) :=
  ⟨rfl,
   (C5_invalid_cycle_number_rejected "abc"
      { completedDirExists := false, planFiles := [], completedFiles := [] }
      (fun _ => true)).1 rfl,
   rfl,
   (C5_invalid_cycle_number_rejected "12345"
      { completedDirExists := false, planFiles := [], completedFiles := [] }
      (fun _ => true)).2.1 12345 rfl (Or.inr (by decide))⟩
